import Mathlib

/-!
Verification development for the Game Boy emulator core (`src/gameboy/mmu.rs`
and `src/gameboy/cpu/mod.rs`).

Shallow embedding conventions:
* machine integers (`u8`, `u16`) are modelled as `Nat`; wrapping arithmetic is
  written with an explicit `% 256` / `% 0x10000`;
* the bit masks of the source are rendered arithmetically:
  `addr & 0xF000       = addr / 0x1000 * 0x1000` (for `addr < 2^16`),
  `addr & 0x0F00       = addr / 0x100 % 0x10 * 0x100`,
  `addr & 0x1FFE       = addr % 0x2000 / 2 * 2`,
  `b & (1 << k) > 0    = (b / 2^k % 2 = 1)`,
  `(v >> k) & 3        = v / 2^k % 4`,
  `v & 0x00FF          = v % 0x100`,
  `(v & 0xFF00) >> 8   = v / 0x100 % 0x100`,
  `(v as u16) << 8     = v * 0x100`,
  `(addr >> 1) & 7     = addr / 2 % 8`;
* fixed-size byte arrays are modelled as total functions `Nat → Nat`;
* a fatal path (`panic!` / `std::process::exit`) is modelled as `none`;
  functions that cannot fail stay pure.
-/

/-- Pointwise update of an array modelled as a function. -/
def upd (f : Nat → Nat) (i v : Nat) : Nat → Nat :=
  fun j => if j = i then v else f j

/-- `const PALETTE: [u8; 4] = [255, 192, 196, 0]` from `mmu.rs`. -/
def PALETTE (i : Nat) : Nat :=
  if i = 0 then 255 else if i = 1 then 192 else if i = 2 then 196 else 0

/-- The `Interupt` component (`interupt.rs` is not part of the sources; only
its two byte fields `flags` and `enable`, read and written by the MMU, are
needed). -/
structure Interupt where
  flags : Nat
  enable : Nat
  deriving Repr, DecidableEq

/-- Modelled from the spec: the `Input` component (`input.rs` is absent from
the sources).  Per §6, reads of `FF00` return the joypad latch and writes set
the column-select nibble; we keep one byte for each. -/
structure Input where
  column : Nat
  latch : Nat
  deriving Repr, DecidableEq

/-- Modelled from the spec: `FF00` reads "return the joypad latch" (§6). -/
def Input.read_joyp (i : Input) : Nat := i.latch

/-- Modelled from the spec: writes to `FF00` "set the column-select bits"
(§4.4). -/
def Input.set_column_line (i : Input) (v : Nat) : Input := { i with column := v }

/-- The `Mmu` struct of `mmu.rs`.  Each fixed-size array is a total function;
`tileset` is indexed as tile/row/column like `[[[u8; 8]; 8]; 384]`. -/
structure Mmu where
  interupts : Interupt
  input : Input
  rom_bank_0 : Nat → Nat
  rom_bank_1 : Nat → Nat
  gpu_vram : Nat → Nat
  ram_switchable : Nat → Nat
  cart_ram : Nat → Nat
  working_ram : Nat → Nat
  io : Nat → Nat
  zero_page : Nat → Nat
  tileset : Nat → Nat → Nat → Nat
  bg_palette : Nat → Nat

/-- `addr & 0xF000` for a `u16` address (first-level decode switch). -/
def hiNib (addr : Nat) : Nat := addr / 0x1000 * 0x1000

/-- `addr & 0x0F00` for a `u16` address (second-level decode switch). -/
def midNib (addr : Nat) : Nat := addr / 0x100 % 0x10 * 0x100

/-- `Mmu::update_tileset`: refresh the eight pixels of the tile row touched by
a write to VRAM address `addr`.  `tile = (addr - 0x8000) / 16`,
`y = (addr >> 1) & 7`; the low-bit plane is the byte at even offset
`addr & 0x1FFE`, the high-bit plane the byte at the following odd offset. -/
def Mmu.update_tileset (m : Mmu) (addr : Nat) : Mmu :=
  { m with tileset := fun t r x =>
      if t = (addr - 0x8000) / 16 ∧ r = addr / 2 % 8 ∧ x < 8 then
        (if m.gpu_vram (addr % 0x2000 / 2 * 2) / 2 ^ (7 - x) % 2 = 1 then 1 else 0) +
        (if m.gpu_vram (addr % 0x2000 / 2 * 2 + 1) / 2 ^ (7 - x) % 2 = 1 then 2 else 0)
      else m.tileset t r x }

/-- `Mmu::read_byte`.  The fatal branches (the commented-out `0x0E00` arm falls
into `std::process::exit`, the final `panic!`) are `none`. -/
def Mmu.read_byte (m : Mmu) (addr : Nat) : Option Nat :=
  if hiNib addr = 0x0000 then
    some (m.rom_bank_0 addr)
  else if hiNib addr = 0x1000 ∨ hiNib addr = 0x2000 ∨ hiNib addr = 0x3000 then
    some (m.rom_bank_0 addr)
  else if hiNib addr = 0x4000 ∨ hiNib addr = 0x5000 ∨ hiNib addr = 0x6000 ∨
      hiNib addr = 0x7000 then
    some (m.rom_bank_1 (addr - 0x4000))
  else if hiNib addr = 0x8000 ∨ hiNib addr = 0x9000 then
    some (m.gpu_vram (addr - 0x8000))
  else if hiNib addr = 0xA000 ∨ hiNib addr = 0xB000 then
    some (m.cart_ram (addr - 0xA000))
  else if hiNib addr = 0xC000 ∨ hiNib addr = 0xD000 then
    some (m.working_ram (addr - 0xC000))
  else if hiNib addr = 0xE000 then
    some (m.working_ram (addr - 0xE000))
  else if hiNib addr = 0xF000 then
    if midNib addr = 0x0000 ∨ midNib addr = 0x0100 ∨ midNib addr = 0x0200 ∨
        midNib addr = 0x0300 ∨ midNib addr = 0x0400 ∨ midNib addr = 0x0500 ∨
        midNib addr = 0x0600 ∨ midNib addr = 0x0700 ∨ midNib addr = 0x0800 ∨
        midNib addr = 0x0900 ∨ midNib addr = 0x0A00 ∨ midNib addr = 0x0B00 ∨
        midNib addr = 0x0C00 ∨ midNib addr = 0x0D00 then
      some (m.working_ram (addr - 0xE000))
    else if midNib addr = 0x0E00 then
      none
    else if midNib addr = 0x0F00 then
      if addr = 0xFF00 then
        some m.input.read_joyp
      else if addr = 0xFF0F then
        some m.interupts.flags
      else if addr = 0xFFFF then
        some m.interupts.enable
      else if 0xFF80 ≤ addr ∧ addr ≤ 0xFFFE then
        some (m.zero_page (addr - 0xFF80))
      else if 0xFF00 ≤ addr ∧ addr ≤ 0xFF7F then
        some (m.io (addr - 0xFF00))
      else
        none
    else
      none
  else
    none

/-- `Mmu::write_byte`, parametrized over the recursive self-call `recur` made
by the `0xFF46` OAM-DMA arm (fuel-style shallow embedding of the recursion;
the concrete `Mmu.write_byte` below instantiates `recur` twice, which covers
every dynamic call depth the source can reach). -/
def writeByteAux (recur : Mmu → Nat → Nat → Option Mmu)
    (m : Mmu) (addr val : Nat) : Option Mmu :=
  if hiNib addr = 0x0000 ∨ hiNib addr = 0x1000 ∨ hiNib addr = 0x2000 ∨
      hiNib addr = 0x3000 ∨ hiNib addr = 0x4000 ∨ hiNib addr = 0x5000 ∨
      hiNib addr = 0x6000 ∨ hiNib addr = 0x7000 then
    some m
  else if hiNib addr = 0x8000 ∨ hiNib addr = 0x9000 then
    let m' : Mmu := { m with gpu_vram := upd m.gpu_vram (addr - 0x8000) val }
    if addr < 0x97FF then some (m'.update_tileset addr) else some m'
  else if hiNib addr = 0xA000 ∨ hiNib addr = 0xB000 then
    some { m with cart_ram := upd m.cart_ram (addr - 0xA000) val }
  else if hiNib addr = 0xC000 ∨ hiNib addr = 0xD000 then
    some { m with working_ram := upd m.working_ram (addr - 0xC000) val }
  else if hiNib addr = 0xE000 then
    some { m with working_ram := upd m.working_ram (addr - 0xE000) val }
  else if hiNib addr = 0xF000 then
    if midNib addr = 0x0000 ∨ midNib addr = 0x0100 ∨ midNib addr = 0x0200 ∨
        midNib addr = 0x0300 ∨ midNib addr = 0x0400 ∨ midNib addr = 0x0500 ∨
        midNib addr = 0x0600 ∨ midNib addr = 0x0700 ∨ midNib addr = 0x0800 ∨
        midNib addr = 0x0900 ∨ midNib addr = 0x0A00 ∨ midNib addr = 0x0B00 ∨
        midNib addr = 0x0C00 ∨ midNib addr = 0x0D00 then
      some { m with working_ram := upd m.working_ram (addr - 0xE000) val }
    else if midNib addr = 0x0E00 then
      some m
    else if midNib addr = 0x0F00 then
      if addr = 0xFF00 then
        some { m with input := m.input.set_column_line val }
      else if 0xFF80 ≤ addr ∧ addr ≤ 0xFFFE then
        some { m with zero_page := upd m.zero_page (addr - 0xFF80) val }
      else if addr = 0xFF04 then
        some { m with io := upd m.io 0x04 0 }
      else if addr = 0xFF0F then
        some { m with interupts := { m.interupts with flags := val } }
      else if addr = 0xFF44 then
        some m
      else if addr = 0xFF46 then
        List.foldlM
          (fun s i =>
            (Mmu.read_byte s (val * 0x100 + i)).bind
              (fun src => recur s (0xFE00 + i) src))
          m (List.range 160)
      else if addr = 0xFF47 then
        some { m with bg_palette := fun i =>
          if i < 4 then PALETTE (val / 2 ^ (i * 2) % 4) else m.bg_palette i }
      else if 0xFF00 ≤ addr ∧ addr ≤ 0xFF7F then
        some { m with io := upd m.io (addr - 0xFF00) val }
      else if addr = 0xFFFF then
        some { m with interupts := { m.interupts with enable := val } }
      else
        none
    else
      none
  else
    none

/-- Depth-0 recursion bottom (never reached: the DMA destination addresses all
fall into the non-recursive `0xFE00`–`0xFEFF` arm). -/
def writeByteNone : Mmu → Nat → Nat → Option Mmu := fun _ _ _ => none

/-- `Mmu::write_byte` at the call depths the source can dynamically reach. -/
def Mmu.write_byte : Mmu → Nat → Nat → Option Mmu :=
  writeByteAux (writeByteAux writeByteNone)

/-- `Mmu::read_word`: little-endian, `read_byte(addr) + (read_byte(addr+1) << 8)`. -/
def Mmu.read_word (m : Mmu) (addr : Nat) : Option Nat :=
  (m.read_byte addr).bind fun lo =>
    (m.read_byte (addr + 1)).bind fun hi =>
      some (lo + hi * 0x100)

/-- `Mmu::write_word`: low byte to `addr` first, then high byte to `addr + 1`. -/
def Mmu.write_word (m : Mmu) (addr val : Nat) : Option Mmu :=
  (m.write_byte addr (val % 0x100)).bind fun m1 =>
    m1.write_byte (addr + 1) (val / 0x100 % 0x100)

/-- A concrete MMU state used for witnesses and counterexamples: all memory
zero except `rom_bank_0[0] = 0x42`. -/
def mmu0 : Mmu where
  interupts := { flags := 0, enable := 0 }
  input := { column := 0, latch := 0 }
  rom_bank_0 := fun a => if a = 0 then 0x42 else 0
  rom_bank_1 := fun _ => 0
  gpu_vram := fun _ => 0
  ram_switchable := fun _ => 0
  cart_ram := fun _ => 0
  working_ram := fun _ => 0
  io := fun _ => 0
  zero_page := fun _ => 0
  tileset := fun _ _ _ => 0
  bg_palette := fun i => PALETTE i

/-- The flag bits of register `F` (`enum Flag` in `cpu/mod.rs`; named
`CpuFlag` here because Mathlib already declares a `Flag`). -/
inductive CpuFlag where
  | Z
  | N
  | H
  | C
  deriving Repr, DecidableEq

/-- The bit mask of each flag (`Z = 0b10000000`, `N = 0b01000000`,
`H = 0b00100000`, `C = 0b00010000`). -/
def CpuFlag.mask : CpuFlag → Nat
  | .Z => 0x80
  | .N => 0x40
  | .H => 0x20
  | .C => 0x10

/-- The register file, execution scratchpad and MMU handle of the `Cpu`
struct.  The queue bookkeeping fields (`instruction`,
`machine_cycles_taken_for_current_step`) live in `Cpu` below; the sub-step
closures of the source only touch this part of the state. -/
structure CpuCore where
  mmu : Mmu
  a : Nat
  b : Nat
  c : Nat
  d : Nat
  e : Nat
  f : Nat
  h : Nat
  l : Nat
  pc : Nat
  sp : Nat
  operand8 : Nat
  operand16 : Nat
  temp_val8 : Nat
  temp_val_16 : Nat

/-- `Cpu::set_flag`: `f = f | flag`. -/
def CpuCore.set_flag (cpu : CpuCore) (flag : CpuFlag) : CpuCore :=
  { cpu with f := cpu.f ||| flag.mask }

/-- `Cpu::clear_flag`: `f = f & !flag` (`!` on `u8` is complement in 0xFF). -/
def CpuCore.clear_flag (cpu : CpuCore) (flag : CpuFlag) : CpuCore :=
  { cpu with f := cpu.f &&& (0xFF ^^^ flag.mask) }

/-- `Cpu::is_flag_set`: `f & flag > 0`. -/
def CpuCore.is_flag_set (cpu : CpuCore) (flag : CpuFlag) : Bool :=
  decide (cpu.f &&& flag.mask > 0)

/-- `Cpu::set_flag_if_cond_else_clear`. -/
def CpuCore.set_flag_if_cond_else_clear (cpu : CpuCore) (cond : Bool)
    (flag : CpuFlag) : CpuCore :=
  if cond then cpu.set_flag flag else cpu.clear_flag flag

/-- `Cpu::handle_zero_flag`: set `Z` iff the register value is zero. -/
def CpuCore.handle_zero_flag (cpu : CpuCore) (register : Nat) : CpuCore :=
  if register = 0 then cpu.set_flag .Z else cpu.clear_flag .Z

/-- `Cpu::add`: 8-bit add helper returning the updated CPU and the result.
`C` from `checked_add` overflow, `Z` from the result, and the source's
half-carry formula `((result & 0x0F) + (overflow & 0x0F)) > 0x0F` where
`overflow = val1 as u16 + val2 as u16`. -/
def CpuCore.add (cpu : CpuCore) (val1 val2 : Nat) : CpuCore × Nat :=
  let result := (val1 + val2) % 256
  let cpu := cpu.clear_flag .N
  let cpu := cpu.set_flag_if_cond_else_clear (decide (val1 + val2 > 0xFF)) .C
  let cpu := cpu.handle_zero_flag result
  let overflow := val1 + val2
  let is_half_carry := decide (result % 16 + overflow % 16 > 0x0F)
  let cpu := cpu.set_flag_if_cond_else_clear is_half_carry .H
  (cpu, result)

/-- `Cpu::adc`: `val = _val.wrapping_add(carry-in)`, then `C` from
`a.checked_add(val)`, `Z` from `val == a`, `H` from
`((val & 0x0F) + (a & 0x0F)) > 0x0F`, `N` cleared, `a = a.wrapping_add(val)`. -/
def CpuCore.adc (cpu : CpuCore) (vIn : Nat) : CpuCore :=
  let val := (vIn + (if cpu.is_flag_set .C then 1 else 0)) % 256
  let result := (cpu.a + val) % 256
  let overflowed := decide (cpu.a + val > 0xFF)
  let cpu := cpu.set_flag_if_cond_else_clear overflowed .C
  let cpu := cpu.set_flag_if_cond_else_clear (decide (val = cpu.a)) .Z
  let is_half_carry := decide (val % 16 + cpu.a % 16 > 0x0F)
  let cpu := cpu.set_flag_if_cond_else_clear is_half_carry .H
  let cpu := cpu.clear_flag .N
  { cpu with a := result }

/-- `Cpu::set_af`: `a` from the high byte and, without masking the low
nibble, `f = val & 0x00FF` (the source comments "not sure if we need to &
here"). -/
def CpuCore.set_af (cpu : CpuCore) (val : Nat) : CpuCore :=
  { cpu with a := val / 0x100 % 0x100, f := val % 0x100 }

/-- A sub-step of an instruction (`InstructionStep` in the disassembler):
the boxed closures of the source become functions on `CpuCore`; `none`
models a fatal memory access inside a step. -/
inductive InstructionStep where
  | Standard (fn : CpuCore → Option CpuCore)
  | Instant (fn : CpuCore → Option CpuCore)
  | InstantConditional (fn : CpuCore → Option (CpuCore × Bool))

/-- An `Instruction`: the FIFO of sub-steps plus the mnemonic. -/
structure Instruction where
  steps : List InstructionStep
  human_readable : String

/-- The full `Cpu` struct: core state plus the in-flight instruction cursor
and the T-state counter. -/
structure Cpu where
  core : CpuCore
  instruction : Option Instruction
  machine_cycles_taken_for_current_step : Nat

/-- The distinct fatal exits of `Cpu::tick`:  a fatal MMU access (or a fatal
access inside a step), the `unwrap` on popping an empty queue, and the
`panic!("We just waited to exec an instant step, the logic is bricked?")`
arm. -/
inductive TickFault where
  | memFault
  | queueEmpty
  | instantAtBoundary
  deriving Repr, DecidableEq

/-- `Cpu::fetch`: read the opcode at `PC` and advance `PC`. -/
def CpuCore.fetch (core : CpuCore) : Option (Nat × CpuCore) :=
  match core.mmu.read_byte core.pc with
  | none => none
  | some op => some (op, { core with pc := (core.pc + 1) % 0x10000 })

/-- The drain loop inside `Cpu::handle_next_step`: starting from a popped
step, execute leading instant steps; a `Standard` step is pushed back to the
front (`some (core, some steps)`); an emptied queue or a failed conditional
clears the instruction (`some (core, none)`). -/
def drainInstant (core : CpuCore) (step : InstructionStep)
    (remaining : List InstructionStep) :
    Option (CpuCore × Option (List InstructionStep)) :=
  match step with
  | .Standard _ => some (core, some (step :: remaining))
  | .Instant fn =>
    match fn core with
    | none => none
    | some core' =>
      match remaining with
      | [] => some (core', none)
      | s :: rs => drainInstant core' s rs
  | .InstantConditional fn =>
    match fn core with
    | none => none
    | some (core', branch) =>
      if branch then
        match remaining with
        | [] => some (core', none)
        | s :: rs => drainInstant core' s rs
      else some (core', none)
termination_by remaining.length
decreasing_by all_goals simp_wf

/-- `Cpu::handle_next_step`, acting on the queue left after the just-executed
`Standard` step: empty queue clears the instruction; a `Standard` front is
left in place; otherwise the instant steps are drained. -/
def handle_next_step (core : CpuCore) (steps : List InstructionStep) :
    Option (CpuCore × Option (List InstructionStep)) :=
  match steps with
  | [] => some (core, none)
  | s :: rs =>
    match s with
    | .Standard _ => some (core, some steps)
    | _ => drainInstant core s rs

/-- `Cpu::tick`, parametrized over the decoder `dis` (`disassemble` lives in
the absent disassembler module).  Idle: fetch, decode, install, count one
T-state.  In flight: count a T-state and, on the fourth, pop the front step;
a popped `Instant`/`InstantConditional` is the `panic!` arm
(`TickFault.instantAtBoundary`); a popped `Standard` runs and the instants
behind it are drained via `handle_next_step`. -/
def Cpu.tick (dis : Nat → Instruction) (cpu : Cpu) : Except TickFault Cpu :=
  match cpu.instruction with
  | none =>
    match cpu.core.fetch with
    | none => .error .memFault
    | some (op, core') =>
      .ok { core := core',
            instruction := some (dis op),
            machine_cycles_taken_for_current_step :=
              cpu.machine_cycles_taken_for_current_step + 1 }
  | some instr =>
    if cpu.machine_cycles_taken_for_current_step + 1 < 4 then
      .ok { cpu with machine_cycles_taken_for_current_step :=
              cpu.machine_cycles_taken_for_current_step + 1 }
    else
      match instr.steps with
      | [] => .error .queueEmpty
      | step :: rest =>
        match step with
        | .Standard fn =>
          match fn cpu.core with
          | none => .error .memFault
          | some core' =>
            match handle_next_step core' rest with
            | none => .error .memFault
            | some (core'', q) =>
              .ok { core := core'',
                    instruction := q.map (fun steps' => { instr with steps := steps' }),
                    machine_cycles_taken_for_current_step := 0 }
        | _ => .error .instantAtBoundary

/-- Whether a step list starts with a `Standard` step (vacuously true when
empty). -/
def firstStandard (steps : List InstructionStep) : Bool :=
  match steps with
  | [] => true
  | .Standard _ :: _ => true
  | _ => false

/-- The §4.3 invariant: between ticks, the front of the in-flight sub-step
queue, if any, is a `Standard` step. -/
def Cpu.frontOk (cpu : Cpu) : Bool :=
  match cpu.instruction with
  | none => true
  | some instr => firstStandard instr.steps

/-- `frontOk` on a tick result (fatal results carry no state to inspect). -/
def frontOkE (r : Except TickFault Cpu) : Bool :=
  match r with
  | .ok cpu => cpu.frontOk
  | .error _ => true

/-- Modelled from the spec: the decoder entry the absent disassembler module
gives for `00` (§4.1: "NOP: 1 standard no-op"). -/
def nop_instruction : Instruction where
  steps := [.Standard (fun core => some core)]
  human_readable := "NOP"

/-- Modelled from the spec: the decoder entry the absent disassembler module
gives for `C2` (§4.1: conditional JP is "first an InstantConditional on the
matching flag state; only fetch/commit if branch taken", with the fetch,
internal and commit cycles of `C3`). -/
def jp_nz_instruction : Instruction where
  steps :=
    [ .InstantConditional (fun core => some (core, decide (core.f &&& 0x80 = 0))),
      .Standard (fun core =>
        (core.mmu.read_byte core.pc).bind fun lo =>
          some { core with operand16 := lo, pc := (core.pc + 1) % 0x10000 }),
      .Standard (fun core =>
        (core.mmu.read_byte core.pc).bind fun hi =>
          some { core with operand16 := core.operand16 + hi * 0x100,
                           pc := (core.pc + 1) % 0x10000 }),
      .Standard (fun core => some core),
      .Instant (fun core => some { core with pc := core.operand16 }) ]
  human_readable := "JP NZ, u16"

/-- Modelled from the spec: a decoder fragment for the absent disassembler
module, covering the two §4.1 decodings exercised by the claims. -/
def dis0 : Nat → Instruction :=
  fun op => if op = 0xC2 then jp_nz_instruction else nop_instruction

/-- A concrete MMU whose ROM is filled with opcode `C2`. -/
def mmuC2 : Mmu :=
  { mmu0 with rom_bank_0 := fun _ => 0xC2 }

/-- A concrete post-boot CPU core state (§3 reset values) over `mmuC2`. -/
def coreC2 : CpuCore where
  mmu := mmuC2
  a := 0x01
  b := 0x00
  c := 0x13
  d := 0x00
  e := 0xD8
  f := 0xB0
  h := 0x01
  l := 0x4D
  pc := 0x100
  sp := 0xFFFE
  operand8 := 0
  operand16 := 0
  temp_val8 := 0
  temp_val_16 := 0

/-- The idle post-boot CPU over `mmuC2`. -/
def cpuC2 : Cpu where
  core := coreC2
  instruction := none
  machine_cycles_taken_for_current_step := 0

/-- A concrete post-boot CPU core over `mmu0`, used for ALU evaluations. -/
def core0 : CpuCore :=
  { coreC2 with mmu := mmu0 }

/-- A decoder fragment whose every entry starts with a `Standard` step. -/
def dis1 : Nat → Instruction := fun _ => nop_instruction

/-- Concrete CPU core with `A = 0x10` and only flag `C` set. -/
def cpuAdc1 : CpuCore := { core0 with a := 0x10, f := 0x10 }

/-- Concrete CPU core with `A = 0x01` and only flag `C` set. -/
def cpuAdc2 : CpuCore := { core0 with a := 0x01, f := 0x10 }

/-- Concrete CPU core with `A = 0` and no flags set. -/
def cpuAdd0 : CpuCore := { core0 with a := 0x00, f := 0x00 }

@[simp] theorem upd_same (f : Nat → Nat) (i v : Nat) : upd f i v i = v := by
  simp [upd]

theorem upd_ne (f : Nat → Nat) (i v j : Nat) (h : j ≠ i) : upd f i v j = f j := by
  simp [upd, h]

theorem read_byte_oam_none (m : Mmu) (addr : Nat) (h1 : 0xFE00 ≤ addr)
    (h2 : addr ≤ 0xFEFF) : m.read_byte addr = none := by
  have hh : hiNib addr = 0xF000 := by unfold hiNib; omega
  have hm : midNib addr = 0x0E00 := by unfold midNib; omega
  unfold Mmu.read_byte
  rw [hh, hm]
  norm_num

theorem read_byte_isSome (m : Mmu) (addr : Nat) (h : addr < 0x10000)
    (h2 : ¬(0xFE00 ≤ addr ∧ addr ≤ 0xFEFF)) : (m.read_byte addr).isSome = true := by
  have h16 : addr / 0x1000 < 0x10 := by omega
  have hcase : hiNib addr = 0x0000 ∨ hiNib addr = 0x1000 ∨ hiNib addr = 0x2000 ∨
      hiNib addr = 0x3000 ∨ hiNib addr = 0x4000 ∨ hiNib addr = 0x5000 ∨
      hiNib addr = 0x6000 ∨ hiNib addr = 0x7000 ∨ hiNib addr = 0x8000 ∨
      hiNib addr = 0x9000 ∨ hiNib addr = 0xA000 ∨ hiNib addr = 0xB000 ∨
      hiNib addr = 0xC000 ∨ hiNib addr = 0xD000 ∨ hiNib addr = 0xE000 ∨
      hiNib addr = 0xF000 := by unfold hiNib; omega
  unfold Mmu.read_byte
  rcases hcase with hh|hh|hh|hh|hh|hh|hh|hh|hh|hh|hh|hh|hh|hh|hh|hh <;> rw [hh] <;> norm_num
  -- remaining: the 0xF000 bucket
  have hmle : midNib addr = 0x0E00 → False := by unfold midNib at *; unfold hiNib at hh; omega
  by_cases hm14 : midNib addr = 0x0000 ∨ midNib addr = 0x0100 ∨ midNib addr = 0x0200 ∨
      midNib addr = 0x0300 ∨ midNib addr = 0x0400 ∨ midNib addr = 0x0500 ∨
      midNib addr = 0x0600 ∨ midNib addr = 0x0700 ∨ midNib addr = 0x0800 ∨
      midNib addr = 0x0900 ∨ midNib addr = 0x0A00 ∨ midNib addr = 0x0B00 ∨
      midNib addr = 0x0C00 ∨ midNib addr = 0x0D00
  · rw [if_pos hm14]; rfl
  · rw [if_neg hm14]
    have hm : midNib addr = 0x0F00 := by unfold midNib at *; unfold hiNib at hh; omega
    rw [hm]
    have hrange : 0xFF00 ≤ addr ∧ addr ≤ 0xFFFF := by
      unfold midNib at hm; unfold hiNib at hh; omega
    norm_num
    split_ifs <;> first | rfl | omega

theorem writeByteAux_oam (recur : Mmu → Nat → Nat → Option Mmu) (m : Mmu)
    (addr val : Nat) (h1 : 0xFE00 ≤ addr) (h2 : addr ≤ 0xFEFF) :
    writeByteAux recur m addr val = some m := by
  have hh : hiNib addr = 0xF000 := by unfold hiNib; omega
  have hm : midNib addr = 0x0E00 := by unfold midNib; omega
  unfold writeByteAux
  rw [hh, hm]
  norm_num

theorem write_byte_cart (m : Mmu) (addr val : Nat) (h1 : 0xA000 ≤ addr)
    (h2 : addr ≤ 0xBFFF) :
    m.write_byte addr val =
      some { m with cart_ram := upd m.cart_ram (addr - 0xA000) val } := by
  have hcase : hiNib addr = 0xA000 ∨ hiNib addr = 0xB000 := by unfold hiNib; omega
  unfold Mmu.write_byte writeByteAux
  rcases hcase with hh|hh <;> rw [hh] <;> norm_num

theorem write_byte_wram (m : Mmu) (addr val : Nat) (h1 : 0xC000 ≤ addr)
    (h2 : addr ≤ 0xDFFF) :
    m.write_byte addr val =
      some { m with working_ram := upd m.working_ram (addr - 0xC000) val } := by
  have hcase : hiNib addr = 0xC000 ∨ hiNib addr = 0xD000 := by unfold hiNib; omega
  unfold Mmu.write_byte writeByteAux
  rcases hcase with hh|hh <;> rw [hh] <;> norm_num

theorem write_byte_echo (m : Mmu) (addr val : Nat) (h1 : 0xE000 ≤ addr)
    (h2 : addr ≤ 0xFDFF) :
    m.write_byte addr val =
      some { m with working_ram := upd m.working_ram (addr - 0xE000) val } := by
  unfold Mmu.write_byte writeByteAux
  by_cases he : addr ≤ 0xEFFF
  · have hh : hiNib addr = 0xE000 := by unfold hiNib; omega
    rw [hh]; norm_num
  · have hh : hiNib addr = 0xF000 := by unfold hiNib; omega
    have hm14 : midNib addr = 0x0000 ∨ midNib addr = 0x0100 ∨ midNib addr = 0x0200 ∨
        midNib addr = 0x0300 ∨ midNib addr = 0x0400 ∨ midNib addr = 0x0500 ∨
        midNib addr = 0x0600 ∨ midNib addr = 0x0700 ∨ midNib addr = 0x0800 ∨
        midNib addr = 0x0900 ∨ midNib addr = 0x0A00 ∨ midNib addr = 0x0B00 ∨
        midNib addr = 0x0C00 ∨ midNib addr = 0x0D00 := by unfold midNib; omega
    rcases hm14 with hm|hm|hm|hm|hm|hm|hm|hm|hm|hm|hm|hm|hm|hm <;>
      rw [hh, hm] <;> norm_num

theorem write_byte_zero_page (m : Mmu) (addr val : Nat) (h1 : 0xFF80 ≤ addr)
    (h2 : addr ≤ 0xFFFE) :
    m.write_byte addr val =
      some { m with zero_page := upd m.zero_page (addr - 0xFF80) val } := by
  have hh : hiNib addr = 0xF000 := by unfold hiNib; omega
  have hm : midNib addr = 0x0F00 := by unfold midNib; omega
  unfold Mmu.write_byte writeByteAux
  rw [hh, hm]
  norm_num
  rw [if_neg (by omega : ¬addr = 0xFF00), if_pos (by omega : 0xFF80 ≤ addr ∧ addr ≤ 0xFFFE)]

theorem write_byte_ie (m : Mmu) (val : Nat) :
    m.write_byte 0xFFFF val =
      some { m with interupts := { m.interupts with enable := val } } := by
  unfold Mmu.write_byte writeByteAux
  norm_num [hiNib, midNib]

theorem read_byte_vram (m : Mmu) (addr : Nat) (h1 : 0x8000 ≤ addr)
    (h2 : addr ≤ 0x9FFF) : m.read_byte addr = some (m.gpu_vram (addr - 0x8000)) := by
  have hcase : hiNib addr = 0x8000 ∨ hiNib addr = 0x9000 := by unfold hiNib; omega
  unfold Mmu.read_byte
  rcases hcase with hh|hh <;> rw [hh] <;> norm_num

theorem read_byte_cart (m : Mmu) (addr : Nat) (h1 : 0xA000 ≤ addr)
    (h2 : addr ≤ 0xBFFF) : m.read_byte addr = some (m.cart_ram (addr - 0xA000)) := by
  have hcase : hiNib addr = 0xA000 ∨ hiNib addr = 0xB000 := by unfold hiNib; omega
  unfold Mmu.read_byte
  rcases hcase with hh|hh <;> rw [hh] <;> norm_num

theorem read_byte_wram (m : Mmu) (addr : Nat) (h1 : 0xC000 ≤ addr)
    (h2 : addr ≤ 0xDFFF) : m.read_byte addr = some (m.working_ram (addr - 0xC000)) := by
  have hcase : hiNib addr = 0xC000 ∨ hiNib addr = 0xD000 := by unfold hiNib; omega
  unfold Mmu.read_byte
  rcases hcase with hh|hh <;> rw [hh] <;> norm_num

theorem read_byte_echo (m : Mmu) (addr : Nat) (h1 : 0xE000 ≤ addr)
    (h2 : addr ≤ 0xFDFF) : m.read_byte addr = some (m.working_ram (addr - 0xE000)) := by
  unfold Mmu.read_byte
  by_cases he : addr ≤ 0xEFFF
  · have hh : hiNib addr = 0xE000 := by unfold hiNib; omega
    rw [hh]; norm_num
  · have hh : hiNib addr = 0xF000 := by unfold hiNib; omega
    have hm14 : midNib addr = 0x0000 ∨ midNib addr = 0x0100 ∨ midNib addr = 0x0200 ∨
        midNib addr = 0x0300 ∨ midNib addr = 0x0400 ∨ midNib addr = 0x0500 ∨
        midNib addr = 0x0600 ∨ midNib addr = 0x0700 ∨ midNib addr = 0x0800 ∨
        midNib addr = 0x0900 ∨ midNib addr = 0x0A00 ∨ midNib addr = 0x0B00 ∨
        midNib addr = 0x0C00 ∨ midNib addr = 0x0D00 := by unfold midNib; omega
    rcases hm14 with hm|hm|hm|hm|hm|hm|hm|hm|hm|hm|hm|hm|hm|hm <;>
      rw [hh, hm] <;> norm_num

theorem read_byte_zero_page (m : Mmu) (addr : Nat) (h1 : 0xFF80 ≤ addr)
    (h2 : addr ≤ 0xFFFE) : m.read_byte addr = some (m.zero_page (addr - 0xFF80)) := by
  have hh : hiNib addr = 0xF000 := by unfold hiNib; omega
  have hm : midNib addr = 0x0F00 := by unfold midNib; omega
  unfold Mmu.read_byte
  rw [hh, hm]
  norm_num
  rw [if_neg (by omega : ¬addr = 0xFF00), if_neg (by omega : ¬addr = 0xFF0F),
    if_neg (by omega : ¬addr = 0xFFFF), if_pos (by omega : 0xFF80 ≤ addr ∧ addr ≤ 0xFFFE)]

theorem read_byte_ie (m : Mmu) : m.read_byte 0xFFFF = some m.interupts.enable := by
  unfold Mmu.read_byte
  norm_num [hiNib, midNib]

theorem write_byte_vram_lt (m : Mmu) (addr val : Nat) (h1 : 0x8000 ≤ addr)
    (h2 : addr ≤ 0x97FE) :
    m.write_byte addr val =
      some (Mmu.update_tileset
        { m with gpu_vram := upd m.gpu_vram (addr - 0x8000) val } addr) := by
  have hcase : hiNib addr = 0x8000 ∨ hiNib addr = 0x9000 := by unfold hiNib; omega
  unfold Mmu.write_byte writeByteAux
  rcases hcase with hh|hh <;> rw [hh] <;> norm_num <;>
    intro hc <;> exact absurd hc (by omega)

theorem write_byte_vram_ge (m : Mmu) (addr val : Nat) (h1 : 0x97FF ≤ addr)
    (h2 : addr ≤ 0x9FFF) :
    m.write_byte addr val =
      some { m with gpu_vram := upd m.gpu_vram (addr - 0x8000) val } := by
  have hcase : hiNib addr = 0x8000 ∨ hiNib addr = 0x9000 := by unfold hiNib; omega
  unfold Mmu.write_byte writeByteAux
  rcases hcase with hh|hh <;> rw [hh] <;> norm_num <;>
    intro hc <;> exact absurd hc (by omega)

theorem write_byte_vram_parts (m : Mmu) (addr val : Nat) (h1 : 0x8000 ≤ addr)
    (h2 : addr ≤ 0x9FFF) :
    ∃ m', m.write_byte addr val = some m' ∧
      m'.gpu_vram = upd m.gpu_vram (addr - 0x8000) val ∧
      m'.cart_ram = m.cart_ram ∧ m'.working_ram = m.working_ram ∧
      m'.zero_page = m.zero_page ∧ m'.interupts = m.interupts := by
  by_cases hlt : addr ≤ 0x97FE
  · exact ⟨_, write_byte_vram_lt m addr val h1 hlt, rfl, rfl, rfl, rfl, rfl⟩
  · exact ⟨_, write_byte_vram_ge m addr val (by omega) h2, rfl, rfl, rfl, rfl, rfl⟩

theorem dma_loop_id (v : Nat) (hv : v < 0x100) (hne : v ≠ 0xFE) :
    ∀ (l : List Nat) (m : Mmu), (∀ i ∈ l, i < 160) →
      List.foldlM
        (fun s i =>
          (Mmu.read_byte s (v * 0x100 + i)).bind
            (fun src => writeByteAux writeByteNone s (0xFE00 + i) src))
        m l = some m := by
  intro l
  induction l with
  | nil => intro m _; rfl
  | cons i t ih =>
    intro m hmem
    have hi : i < 160 := hmem i (by simp)
    have hs := read_byte_isSome m (v * 0x100 + i) (by omega) (by omega)
    obtain ⟨src, hsrc⟩ := Option.isSome_iff_exists.mp hs
    rw [List.foldlM_cons, hsrc]
    show (writeByteAux writeByteNone m (0xFE00 + i) src).bind _ = some m
    rw [writeByteAux_oam _ _ _ _ (by omega) (by omega)]
    show List.foldlM _ m t = some m
    exact ih m (fun j hj => hmem j (by simp [hj]))

theorem drainInstant_front (core : CpuCore) (step : InstructionStep)
    (remaining : List InstructionStep) (core' : CpuCore)
    (steps' : List InstructionStep)
    (h : drainInstant core step remaining = some (core', some steps')) :
    firstStandard steps' = true := by
  induction remaining generalizing core step with
  | nil =>
    cases step with
    | Standard fn =>
      unfold drainInstant at h
      simp only [Option.some.injEq, Prod.mk.injEq] at h
      obtain ⟨-, h2⟩ := h
      subst h2
      rfl
    | Instant fn =>
      unfold drainInstant at h
      cases hfn : fn core with
      | none => rw [hfn] at h; simp at h
      | some c2 => rw [hfn] at h; simp at h
    | InstantConditional fn =>
      unfold drainInstant at h
      cases hfn : fn core with
      | none => rw [hfn] at h; simp at h
      | some p =>
        rw [hfn] at h
        rcases p with ⟨c2, b⟩
        cases b <;> simp_all
  | cons s rs ih =>
    cases step with
    | Standard fn =>
      unfold drainInstant at h
      simp only [Option.some.injEq, Prod.mk.injEq] at h
      obtain ⟨-, h2⟩ := h
      subst h2
      rfl
    | Instant fn =>
      unfold drainInstant at h
      cases hfn : fn core with
      | none => rw [hfn] at h; simp at h
      | some c2 =>
        rw [hfn] at h
        exact ih c2 s h
    | InstantConditional fn =>
      unfold drainInstant at h
      cases hfn : fn core with
      | none => rw [hfn] at h; simp at h
      | some p =>
        rw [hfn] at h
        rcases p with ⟨c2, b⟩
        cases b with
        | false => simp_all
        | true => exact ih c2 s (by simpa using h)

theorem handle_next_step_front (core : CpuCore) (steps : List InstructionStep)
    (core' : CpuCore) (steps' : List InstructionStep)
    (h : handle_next_step core steps = some (core', some steps')) :
    firstStandard steps' = true := by
  cases steps with
  | nil => simp [handle_next_step] at h
  | cons s rs =>
    cases s with
    | Standard fn =>
      simp only [handle_next_step, Option.some.injEq, Prod.mk.injEq] at h
      obtain ⟨-, h2⟩ := h
      subst h2
      rfl
    | Instant fn => exact drainInstant_front core _ rs core' steps' h
    | InstantConditional fn => exact drainInstant_front core _ rs core' steps' h

/-- C2 (amended): provided every instruction the decoder yields begins with a
`Standard` step, a T-state tick preserves the invariant that the front of the
in-flight sub-step queue is `Standard`, and the machine-cycle-boundary panic
(`TickFault.instantAtBoundary`) is never reached from a state satisfying the
invariant. -/
theorem C2_theorem (dis : Nat → Instruction)
    (hdis : ∀ op, firstStandard (dis op).steps = true)
    (cpu : Cpu) (hok : cpu.frontOk = true) :
    frontOkE (Cpu.tick dis cpu) = true ∧
      Cpu.tick dis cpu ≠ Except.error TickFault.instantAtBoundary := by
  unfold Cpu.tick
  cases hi : cpu.instruction with
  | none =>
    cases hf : cpu.core.fetch with
    | none => dsimp only; exact ⟨rfl, by simp⟩
    | some p =>
      rcases p with ⟨op, core'⟩
      dsimp only
      exact ⟨by simpa [frontOkE, Cpu.frontOk] using hdis op, by simp⟩
  | some instr =>
    have hfs : firstStandard instr.steps = true := by
      unfold Cpu.frontOk at hok
      rw [hi] at hok
      exact hok
    dsimp only
    by_cases hmc : cpu.machine_cycles_taken_for_current_step + 1 < 4
    · rw [if_pos hmc]
      exact ⟨by simpa [frontOkE, Cpu.frontOk] using hfs, by simp⟩
    · rw [if_neg hmc]
      cases hs : instr.steps with
      | nil => exact ⟨rfl, by simp⟩
      | cons step rest =>
        rw [hs] at hfs
        cases step with
        | Standard fn =>
          dsimp only
          cases hfn : fn cpu.core with
          | none => exact ⟨rfl, by simp⟩
          | some core' =>
            dsimp only
            cases hh : handle_next_step core' rest with
            | none => exact ⟨rfl, by simp⟩
            | some p =>
              rcases p with ⟨core'', q⟩
              dsimp only
              refine ⟨?_, by simp⟩
              cases q with
              | none => rfl
              | some steps' =>
                simpa [frontOkE, Cpu.frontOk] using
                  handle_next_step_front core' rest core'' steps' hh
        | Instant fn => simp [firstStandard] at hfs
        | InstantConditional fn => simp [firstStandard] at hfs

theorem write_byte_ff46 (m : Mmu) (v : Nat) :
    m.write_byte 0xFF46 v =
      List.foldlM
        (fun s i =>
          (Mmu.read_byte s (v * 0x100 + i)).bind
            (fun src => writeByteAux writeByteNone s (0xFE00 + i) src))
        m (List.range 160) := rfl

theorem write_byte_ff47 (m : Mmu) (v : Nat) :
    m.write_byte 0xFF47 v =
      some { m with bg_palette := fun i =>
        if i < 4 then PALETTE (v / 2 ^ (i * 2) % 4) else m.bg_palette i } := rfl

/-- C1 (amended): writing any byte `v ≠ 0xFE` to `FF46` runs the OAM-DMA copy
loop, but every destination write falls into the `FE00`–`FEFF` arm of
`write_byte`, which returns without storing, so the MMU state is completely
unchanged; no OAM bytes are stored (and for `v = 0xFE` the source reads
themselves hit the fatal unhandled-read branch). -/
theorem C1_theorem (m : Mmu) (v : Nat) (hv : v < 0x100) (hne : v ≠ 0xFE) :
    m.write_byte 0xFF46 v = some m := by
  rw [write_byte_ff46]
  exact dma_loop_id v hv hne (List.range 160) m (fun i hi => List.mem_range.mp hi)

/-- Witness for C1: the DMA write of `0x00` leaves the concrete state `mmu0`
unchanged. -/
theorem C1_witness :
    (0x00 : Nat) < 0x100 ∧ (0x00 : Nat) ≠ 0xFE ∧
      mmu0.write_byte 0xFF46 0x00 = some mmu0 :=
  ⟨by norm_num, by norm_num, C1_theorem mmu0 0x00 (by norm_num) (by norm_num)⟩

/-- Counterexample to C1 as stated: after writing `0x00` to `FF46` on `mmu0`,
reading back the first OAM byte `FE00` is the fatal unhandled-read path
(`none`), while the source byte `read_byte(0x0000)` is `0x42` — the copied
bytes are not held at `FE00..FE9F`. -/
theorem C1_counterexample :
    (mmu0.write_byte 0xFF46 0x00).bind (fun s => s.read_byte 0xFE00) = none ∧
      mmu0.read_byte 0x0000 = some 0x42 := by
  constructor
  · rw [write_byte_ff46,
      dma_loop_id 0x00 (by norm_num) (by norm_num) (List.range 160) mmu0
        (fun i hi => List.mem_range.mp hi)]
    show mmu0.read_byte 0xFE00 = none
    exact read_byte_oam_none mmu0 0xFE00 (by norm_num) (by norm_num)
  · rfl

/-- Witness for C2: instantiated with the all-NOP decoder `dis1` (every entry
`Standard`-first) at the idle post-boot state `cpuC2`. -/
theorem C2_witness :
    frontOkE (Cpu.tick dis1 cpuC2) = true ∧
      Cpu.tick dis1 cpuC2 ≠ Except.error TickFault.instantAtBoundary :=
  C2_theorem dis1 (fun _ => rfl) cpuC2 rfl

/-- Counterexample to C2 as stated: with the spec-modelled decoder `dis0`
(§4.1 gives conditional `JP` a leading `InstantConditional` sub-step), the
tick that fetches opcode `C2` installs an instruction whose queue front is not
`Standard`, violating the invariant between ticks, and the fourth tick pops it
at the machine-cycle boundary and reaches the panic arm. -/
theorem C2_counterexample :
    frontOkE (Cpu.tick dis0 cpuC2) = false ∧
      ((Cpu.tick dis0 cpuC2).bind (Cpu.tick dis0) |>.bind (Cpu.tick dis0)
        |>.bind (Cpu.tick dis0)) = Except.error TickFault.instantAtBoundary :=
  ⟨rfl, rfl⟩

/-- C3 is wrong about the code (a documented source bug, spec §9): `adc` at
`A = 0x10`, carry-in 1, operand `0x0F` yields `A = 0x20` but sets `Z` (the code
compares `val == a` instead of testing the result) and clears `H`; at
`A = 0x01`, carry-in 1, operand `0xFF` it clears `C` and `H` although
`a + v + cin = 0x101 > 0xFF` and
`(a & 0x0F) + (v & 0x0F) + cin = 0x11 > 0x0F`. -/
theorem C3_theorem :
    (cpuAdc1.adc 0x0F).a = 0x20 ∧
    (cpuAdc1.adc 0x0F).is_flag_set CpuFlag.Z = true ∧
    (cpuAdc1.adc 0x0F).is_flag_set CpuFlag.H = false ∧
    (0x10 + 0x0F + 1) % 256 ≠ 0 ∧
    (cpuAdc2.adc 0xFF).a = 0x01 ∧
    (cpuAdc2.adc 0xFF).is_flag_set CpuFlag.C = false ∧
    (cpuAdc2.adc 0xFF).is_flag_set CpuFlag.H = false ∧
    0x01 + 0xFF + 1 > 0xFF ∧
    0x01 % 16 + 0xFF % 16 + 1 > 0x0F := by
  refine ⟨rfl, rfl, rfl, by norm_num, rfl, rfl, rfl, by norm_num, by norm_num⟩

/-- C4 is wrong about the code: `set_af` stores the full low byte of the
loaded value into `F` without masking, so loading `AF = 0x0001` leaves
`F = 0x01`, whose low nibble is nonzero. -/
theorem C4_theorem :
    (core0.set_af 0x0001).f = 0x01 ∧ (core0.set_af 0x0001).f % 0x10 ≠ 0 := by
  refine ⟨rfl, by decide⟩

/-- C5 is wrong about the code (a documented source bug, spec §9): `add` of
`0x0F` and `0x01` returns `0x10` but leaves `H` clear (the code computes the
half-carry from `((result & 0x0F) + ((a + v) & 0x0F)) > 0x0F`, which is zero
here), although the claimed formula `(a & 0x0F) + (v & 0x0F) > 0x0F` holds. -/
theorem C5_theorem :
    (cpuAdd0.add 0x0F 0x01).2 = 0x10 ∧
    (cpuAdd0.add 0x0F 0x01).1.is_flag_set CpuFlag.H = false ∧
    (cpuAdd0.add 0x0F 0x01).1.is_flag_set CpuFlag.C = false ∧
    (cpuAdd0.add 0x0F 0x01).1.is_flag_set CpuFlag.Z = false ∧
    0x0F % 16 + 0x01 % 16 > 0x0F := by
  refine ⟨rfl, rfl, rfl, rfl, by norm_num⟩

/-- C6 (amended): a write to `8000`–`97FE` stores the byte in VRAM and
refreshes the affected tileset row from the two plane bytes (low bit from the
even address, high bit from the odd address); a write to the tile maps
`9800`–`9FFF` stores the byte and leaves the tileset cache unchanged.  The
byte at exactly `97FF` is excluded: the source guards the refresh with
`addr < 0x97FF`. -/
theorem C6_theorem (m : Mmu) (a v : Nat) :
    (0x8000 ≤ a → a ≤ 0x97FE →
      ∃ m', m.write_byte a v = some m' ∧
        m'.gpu_vram = upd m.gpu_vram (a - 0x8000) v ∧
        (∀ x, x < 8 →
          m'.tileset ((a - 0x8000) / 16) (a / 2 % 8) x =
            (if (m'.gpu_vram ((a - 0x8000) / 2 * 2)).testBit (7 - x) then 1 else 0) +
            (if (m'.gpu_vram ((a - 0x8000) / 2 * 2 + 1)).testBit (7 - x) then 2
             else 0))) ∧
    (0x9800 ≤ a → a ≤ 0x9FFF →
      ∃ m', m.write_byte a v = some m' ∧
        m'.gpu_vram = upd m.gpu_vram (a - 0x8000) v ∧ m'.tileset = m.tileset) := by
  constructor
  · intro h1 h2
    refine ⟨_, write_byte_vram_lt m a v h1 h2, rfl, ?_⟩
    intro x hx
    unfold Mmu.update_tileset
    dsimp only
    rw [if_pos ⟨rfl, rfl, hx⟩]
    have e1 : a % 0x2000 / 2 * 2 = (a - 0x8000) / 2 * 2 := by omega
    rw [e1, Nat.testBit_to_div_mod, Nat.testBit_to_div_mod]
    simp only [decide_eq_true_eq]
  · intro h1 h2
    exact ⟨_, write_byte_vram_ge m a v (by omega) h2, rfl, rfl⟩

/-- Witness for C6: writing `0x3C` to `0x8000` on `mmu0` makes
`tileset[0][0][2] = 1` (bit 5 of the even plane byte `0x3C` is set, the odd
plane byte is zero). -/
theorem C6_witness :
    (mmu0.write_byte 0x8000 0x3C).map (fun m' => m'.tileset 0 0 2) = some 1 := by
  obtain ⟨m', hw, hv, ht⟩ :=
    (C6_theorem mmu0 0x8000 0x3C).1 (by norm_num) (by norm_num)
  rw [hw]
  have h2 := ht 2 (by norm_num)
  norm_num at h2 ⊢
  rw [h2, hv]
  norm_num [upd]
  decide

/-- Counterexample to C6 as stated: writing `0xFF` to `0x97FF` stores the
byte in VRAM but does not refresh the tileset row — `tileset[383][7][0]`
stays `0` although the claimed formula gives `2` (bit 7 of the odd plane byte
`0xFF` is set). -/
theorem C6_counterexample :
    (mmu0.write_byte 0x97FF 0xFF).map (fun m' => m'.gpu_vram 0x17FF) = some 0xFF ∧
    (mmu0.write_byte 0x97FF 0xFF).map (fun m' => m'.tileset 383 7 0) = some 0 ∧
    ((if ((0 : Nat)).testBit 7 then 1 else 0) +
      (if ((0xFF : Nat)).testBit 7 then 2 else 0) : Nat) = 2 ∧
    (0 : Nat) ≠ 2 := by
  refine ⟨rfl, rfl, by decide, by decide⟩

/-- C7 (amended): writing `v` to `FF47` rebuilds `bg_palette` with
`bg_palette[i] = PALETTE[(v >> 2i) & 3]`, but the byte is not stored: the
I/O array is unchanged and a subsequent `read_byte(0xFF47)` returns the
previous I/O byte at offset `0x47`, not `v`. -/
theorem C7_theorem (m : Mmu) (v : Nat) :
    ∃ m', m.write_byte 0xFF47 v = some m' ∧
      (∀ i, i < 4 → m'.bg_palette i = PALETTE (v / 2 ^ (i * 2) % 4)) ∧
      m'.io = m.io ∧
      m'.read_byte 0xFF47 = some (m.io 0x47) := by
  refine ⟨_, write_byte_ff47 m v, ?_, rfl, rfl⟩
  intro i hi
  dsimp only
  rw [if_pos hi]

/-- Witness for C7: writing `0xE4` to `FF47` on `mmu0` yields the palette
`[255, 192, 196, 0]`. -/
theorem C7_witness :
    (mmu0.write_byte 0xFF47 0xE4).map
      (fun m' => (m'.bg_palette 0, m'.bg_palette 1, m'.bg_palette 2,
        m'.bg_palette 3)) = some (255, 192, 196, 0) := by
  obtain ⟨m', hw, hp, hio, hr⟩ := C7_theorem mmu0 0xE4
  rw [hw]
  have h0 := hp 0 (by norm_num)
  have h1 := hp 1 (by norm_num)
  have h2 := hp 2 (by norm_num)
  have h3 := hp 3 (by norm_num)
  norm_num [PALETTE] at h0 h1 h2 h3
  simp [h0, h1, h2, h3]

/-- Counterexample to C7 as stated: after writing `0xAB` to `FF47` on `mmu0`,
`read_byte(0xFF47)` returns `0x00` (the untouched I/O byte), not `0xAB`. -/
theorem C7_counterexample :
    (mmu0.write_byte 0xFF47 0xAB).bind (fun m' => m'.read_byte 0xFF47) =
      some 0x00 ∧ (some 0x00 : Option Nat) ≠ some 0xAB := by
  refine ⟨rfl, by decide⟩

/-- C8: for every MMU state and every address in `E000`–`FDFF`, a read equals
the read at `addr - 0x2000`, reads are delegated to work RAM at offset
`addr - 0xE000`, and writes are delegated to the same work-RAM offset. -/
theorem C8_theorem (m : Mmu) (a : Nat) (h1 : 0xE000 ≤ a) (h2 : a ≤ 0xFDFF) :
    m.read_byte a = m.read_byte (a - 0x2000) ∧
    m.read_byte a = some (m.working_ram (a - 0xE000)) ∧
    (∀ v, m.write_byte a v =
      some { m with working_ram := upd m.working_ram (a - 0xE000) v }) := by
  refine ⟨?_, read_byte_echo m a h1 h2, fun v => write_byte_echo m a v h1 h2⟩
  rw [read_byte_echo m a h1 h2, read_byte_wram m (a - 0x2000) (by omega) (by omega)]
  have e : a - 0x2000 - 0xC000 = a - 0xE000 := by omega
  rw [e]

/-- Witness for C8 at `a = 0xE000` on `mmu0`. -/
theorem C8_witness :
    mmu0.read_byte 0xE000 = mmu0.read_byte 0xC000 :=
  (C8_theorem mmu0 0xE000 (by norm_num) (by norm_num)).1

/-- C10: `read_byte` returns a byte for every address outside
`FE00`–`FEFF`, and for every address in that OAM window it takes the fatal
unhandled-branch path (the OAM read arm exists only as commented-out code). -/
theorem C10_theorem (m : Mmu) (addr : Nat) (h : addr < 0x10000) :
    ((0xFE00 ≤ addr ∧ addr ≤ 0xFEFF) → m.read_byte addr = none) ∧
    (¬(0xFE00 ≤ addr ∧ addr ≤ 0xFEFF) → (m.read_byte addr).isSome = true) :=
  ⟨fun hc => read_byte_oam_none m addr hc.1 hc.2,
   fun hn => read_byte_isSome m addr h hn⟩

/-- Witness for C10 at `0xFE00` (fatal) and `0x1234` (defined) on `mmu0`. -/
theorem C10_witness :
    mmu0.read_byte 0xFE00 = none ∧ (mmu0.read_byte 0x1234).isSome = true :=
  ⟨(C10_theorem mmu0 0xFE00 (by norm_num)).1 (by norm_num),
   (C10_theorem mmu0 0x1234 (by norm_num)).2 (by norm_num)⟩

theorem write_byte_cart_parts (m : Mmu) (addr val : Nat) (h1 : 0xA000 ≤ addr)
    (h2 : addr ≤ 0xBFFF) :
    ∃ m', m.write_byte addr val = some m' ∧
      m'.cart_ram = upd m.cart_ram (addr - 0xA000) val ∧
      m'.gpu_vram = m.gpu_vram ∧ m'.working_ram = m.working_ram ∧
      m'.zero_page = m.zero_page ∧ m'.interupts = m.interupts :=
  ⟨_, write_byte_cart m addr val h1 h2, rfl, rfl, rfl, rfl, rfl⟩

theorem write_byte_wram_parts (m : Mmu) (addr val : Nat) (h1 : 0xC000 ≤ addr)
    (h2 : addr ≤ 0xDFFF) :
    ∃ m', m.write_byte addr val = some m' ∧
      m'.working_ram = upd m.working_ram (addr - 0xC000) val ∧
      m'.gpu_vram = m.gpu_vram ∧ m'.cart_ram = m.cart_ram ∧
      m'.zero_page = m.zero_page ∧ m'.interupts = m.interupts :=
  ⟨_, write_byte_wram m addr val h1 h2, rfl, rfl, rfl, rfl, rfl⟩

theorem write_byte_echo_parts (m : Mmu) (addr val : Nat) (h1 : 0xE000 ≤ addr)
    (h2 : addr ≤ 0xFDFF) :
    ∃ m', m.write_byte addr val = some m' ∧
      m'.working_ram = upd m.working_ram (addr - 0xE000) val ∧
      m'.gpu_vram = m.gpu_vram ∧ m'.cart_ram = m.cart_ram ∧
      m'.zero_page = m.zero_page ∧ m'.interupts = m.interupts :=
  ⟨_, write_byte_echo m addr val h1 h2, rfl, rfl, rfl, rfl, rfl⟩

theorem write_byte_zero_page_parts (m : Mmu) (addr val : Nat) (h1 : 0xFF80 ≤ addr)
    (h2 : addr ≤ 0xFFFE) :
    ∃ m', m.write_byte addr val = some m' ∧
      m'.zero_page = upd m.zero_page (addr - 0xFF80) val ∧
      m'.gpu_vram = m.gpu_vram ∧ m'.cart_ram = m.cart_ram ∧
      m'.working_ram = m.working_ram ∧ m'.interupts = m.interupts :=
  ⟨_, write_byte_zero_page m addr val h1 h2, rfl, rfl, rfl, rfl, rfl⟩

theorem write_byte_ie_parts (m : Mmu) (val : Nat) :
    ∃ m', m.write_byte 0xFFFF val = some m' ∧
      m'.interupts.enable = val ∧
      m'.gpu_vram = m.gpu_vram ∧ m'.cart_ram = m.cart_ram ∧
      m'.working_ram = m.working_ram ∧ m'.zero_page = m.zero_page :=
  ⟨_, write_byte_ie m val, rfl, rfl, rfl, rfl, rfl⟩

/-- C9: in every writable-RAM region (VRAM `8000`–`9FFF`, cart RAM
`A000`–`BFFF`, work RAM `C000`–`DFFF`, HRAM `FF80`–`FFFE`), `write_word`
followed by `read_word` at the same address round-trips any 16-bit value,
with the low byte at `a` and the high byte at `a + 1` (including the
boundary addresses whose high byte lands in the following region). -/
theorem C9_theorem (m : Mmu) (a v : Nat) (hv : v < 0x10000)
    (hr : (0x8000 ≤ a ∧ a ≤ 0x9FFF) ∨ (0xA000 ≤ a ∧ a ≤ 0xBFFF) ∨
          (0xC000 ≤ a ∧ a ≤ 0xDFFF) ∨ (0xFF80 ≤ a ∧ a ≤ 0xFFFE)) :
    (m.write_word a v).bind (fun m2 => m2.read_word a) = some v := by
  unfold Mmu.write_word Mmu.read_word
  rcases hr with ⟨h1, h2⟩ | ⟨h1, h2⟩ | ⟨h1, h2⟩ | ⟨h1, h2⟩
  · -- VRAM
    obtain ⟨m1, hw1, hg1, hc1, hwr1, hz1, hi1⟩ :=
      write_byte_vram_parts m a (v % 0x100) h1 h2
    rw [hw1]
    simp only [Option.some_bind]
    by_cases hb : a ≤ 0x9FFE
    · obtain ⟨m2, hw2, hg2, hc2, hwr2, hz2, hi2⟩ :=
        write_byte_vram_parts m1 (a + 1) (v / 0x100 % 0x100) (by omega) (by omega)
      rw [hw2]
      simp only [Option.some_bind]
      rw [read_byte_vram m2 a h1 h2, read_byte_vram m2 (a + 1) (by omega) (by omega)]
      simp only [Option.some_bind]
      rw [hg2, hg1]
      simp only [upd, Option.some.injEq]
      split_ifs <;> omega
    · -- a = 0x9FFF, second byte goes to cart RAM
      obtain ⟨m2, hw2, hc2, hg2, hwr2, hz2, hi2⟩ :=
        write_byte_cart_parts m1 (a + 1) (v / 0x100 % 0x100) (by omega) (by omega)
      rw [hw2]
      simp only [Option.some_bind]
      rw [read_byte_vram m2 a h1 h2, read_byte_cart m2 (a + 1) (by omega) (by omega)]
      simp only [Option.some_bind]
      rw [hg2, hg1, hc2, hc1]
      simp only [upd, Option.some.injEq]
      split_ifs <;> omega
  · -- cart RAM
    obtain ⟨m1, hw1, hc1, hg1, hwr1, hz1, hi1⟩ :=
      write_byte_cart_parts m a (v % 0x100) h1 h2
    rw [hw1]
    simp only [Option.some_bind]
    by_cases hb : a ≤ 0xBFFE
    · obtain ⟨m2, hw2, hc2, hg2, hwr2, hz2, hi2⟩ :=
        write_byte_cart_parts m1 (a + 1) (v / 0x100 % 0x100) (by omega) (by omega)
      rw [hw2]
      simp only [Option.some_bind]
      rw [read_byte_cart m2 a h1 h2, read_byte_cart m2 (a + 1) (by omega) (by omega)]
      simp only [Option.some_bind]
      rw [hc2, hc1]
      simp only [upd, Option.some.injEq]
      split_ifs <;> omega
    · -- a = 0xBFFF, second byte goes to work RAM
      obtain ⟨m2, hw2, hwr2, hg2, hc2, hz2, hi2⟩ :=
        write_byte_wram_parts m1 (a + 1) (v / 0x100 % 0x100) (by omega) (by omega)
      rw [hw2]
      simp only [Option.some_bind]
      rw [read_byte_cart m2 a h1 h2, read_byte_wram m2 (a + 1) (by omega) (by omega)]
      simp only [Option.some_bind]
      rw [hc2, hc1, hwr2, hwr1]
      simp only [upd, Option.some.injEq]
      split_ifs <;> omega
  · -- work RAM
    obtain ⟨m1, hw1, hwr1, hg1, hc1, hz1, hi1⟩ :=
      write_byte_wram_parts m a (v % 0x100) h1 h2
    rw [hw1]
    simp only [Option.some_bind]
    by_cases hb : a ≤ 0xDFFE
    · obtain ⟨m2, hw2, hwr2, hg2, hc2, hz2, hi2⟩ :=
        write_byte_wram_parts m1 (a + 1) (v / 0x100 % 0x100) (by omega) (by omega)
      rw [hw2]
      simp only [Option.some_bind]
      rw [read_byte_wram m2 a h1 h2, read_byte_wram m2 (a + 1) (by omega) (by omega)]
      simp only [Option.some_bind]
      rw [hwr2, hwr1]
      simp only [upd, Option.some.injEq]
      split_ifs <;> omega
    · -- a = 0xDFFF, second byte goes through the echo range
      obtain ⟨m2, hw2, hwr2, hg2, hc2, hz2, hi2⟩ :=
        write_byte_echo_parts m1 (a + 1) (v / 0x100 % 0x100) (by omega) (by omega)
      rw [hw2]
      simp only [Option.some_bind]
      rw [read_byte_wram m2 a h1 h2, read_byte_echo m2 (a + 1) (by omega) (by omega)]
      simp only [Option.some_bind]
      rw [hwr2, hwr1]
      simp only [upd, Option.some.injEq]
      split_ifs <;> omega
  · -- HRAM
    obtain ⟨m1, hw1, hz1, hg1, hc1, hwr1, hi1⟩ :=
      write_byte_zero_page_parts m a (v % 0x100) h1 h2
    rw [hw1]
    simp only [Option.some_bind]
    by_cases hb : a ≤ 0xFFFD
    · obtain ⟨m2, hw2, hz2, hg2, hc2, hwr2, hi2⟩ :=
        write_byte_zero_page_parts m1 (a + 1) (v / 0x100 % 0x100) (by omega) (by omega)
      rw [hw2]
      simp only [Option.some_bind]
      rw [read_byte_zero_page m2 a h1 h2,
        read_byte_zero_page m2 (a + 1) (by omega) (by omega)]
      simp only [Option.some_bind]
      rw [hz2, hz1]
      simp only [upd, Option.some.injEq]
      split_ifs <;> omega
    · -- a = 0xFFFE, second byte goes to the interrupt-enable register
      have ha : a + 1 = 0xFFFF := by omega
      obtain ⟨m2, hw2, he2, hg2, hc2, hwr2, hz2⟩ :=
        write_byte_ie_parts m1 (v / 0x100 % 0x100)
      rw [ha, hw2]
      simp only [Option.some_bind]
      rw [read_byte_zero_page m2 a h1 h2, read_byte_ie m2]
      simp only [Option.some_bind]
      rw [he2, hz2, hz1]
      simp only [upd, Option.some.injEq]
      split_ifs <;> omega
  

/-- Witness for C9: the word `0xBEEF` round-trips at work-RAM address
`0xC123` on `mmu0`. -/
theorem C9_witness :
    (mmu0.write_word 0xC123 0xBEEF).bind (fun m2 => m2.read_word 0xC123) =
      some 0xBEEF :=
  C9_theorem mmu0 0xC123 0xBEEF (by norm_num) (Or.inr (Or.inr (Or.inl ⟨by norm_num, by norm_num⟩)))
